import Mathlib

/-!
Shallow embedding of the market-making scripts in
src/Hyperliquid/scripts (market_maker.py, mm_simple.py,
order_book_vwap_mm.py), with theorems checking the specification
claims about them.

Python floats are modelled as exact rationals (decimal literals taken at
face value); real-valued computations that use a square root
(volatility) are modelled over the reals. Dynamically-typed dictionary
fields read with dict.get and converted with float() are modelled by the
RawNum type below: a key can be absent, present but not convertible
(float() raises), or a number.
-/

namespace MM

/-! Configuration constants from market_maker.py (lines 35-76).
COIN is "BTC", whose tick size in COIN_CONFIG is 1.0. -/

def COIN : String := "BTC"

def BASE_SIZE : ℚ := 1/10000

def BASE_SPREAD_PCT : ℚ := 1/1000

def MIN_SPREAD_PCT : ℚ := 1/2000

def MAX_SPREAD_PCT : ℚ := 1/50

def VOL_WINDOW_SECONDS : ℚ := 30

def VOL_SCALE : ℚ := 2

def MIN_ORDER_NOTIONAL : ℚ := 5

def MIN_HOLD_SECONDS : ℚ := 3

def MAX_POSITION : ℚ := 1/100

def POSITION_SKEW_FACTOR : ℚ := 3/2

def STOP_TRADING_THRESHOLD : ℚ := 1/125

def tick_size : ℚ := 1

/-- A numeric dictionary field as the scripts read it: the key can be
absent, present but not convertible by float() (which raises
ValueError/TypeError), or convertible to a number. -/
inductive RawNum where
  | absent
  | bad
  | val (q : ℚ)
deriving DecidableEq

/-- Models float(d.get(key, default)): an absent key falls back to the
default, an unconvertible value raises (none), a number converts. -/
def floatOfGet (r : RawNum) (default : ℚ) : Option ℚ :=
  match r with
  | .absent => some default
  | .bad => none
  | .val q => some q

/-- A fill event dictionary as read by the scripts: get("coin"),
get("side"), get("sz"), get("px") and the truthiness of
get("isSnapshot"). -/
structure Fill where
  coin : Option String
  side : Option String
  sz : RawNum
  px : RawNum
  isSnapshot : Bool
deriving DecidableEq

/-- A raw fill message element, which may fail the isinstance(fill, dict)
check. -/
inductive FillObj where
  | dict (f : Fill)
  | nonDict
deriving DecidableEq

/-- PositionTracker.update_from_fill (market_maker.py lines 207-221;
identical in mm_simple.py): validates the instrument, parses the size,
adds it for side "B", subtracts it for side "A", leaves the position
unchanged otherwise. -/
def update_from_fill (coin : String) (position : ℚ) (fill : FillObj) : ℚ :=
  match fill with
  | .nonDict => position
  | .dict f =>
    if f.coin ≠ some coin then position
    else
      match floatOfGet f.sz 0 with
      | none => position
      | some sz =>
        if f.side = some "B" then position + sz
        else if f.side = some "A" then position - sz
        else position

/-- The size a fill contributes as a buy: its parsed size when it is a
well-formed buy fill on the tracked instrument, 0 otherwise. -/
def buySize (coin : String) (fill : FillObj) : ℚ :=
  match fill with
  | .nonDict => 0
  | .dict f =>
    if f.coin = some coin ∧ f.side = some "B" then
      (floatOfGet f.sz 0).getD 0
    else 0

/-- The size a fill contributes as a sell: its parsed size when it is a
well-formed sell fill on the tracked instrument, 0 otherwise. -/
def sellSize (coin : String) (fill : FillObj) : ℚ :=
  match fill with
  | .nonDict => 0
  | .dict f =>
    if f.coin = some coin ∧ f.side = some "A" then
      (floatOfGet f.sz 0).getD 0
    else 0

/-- One entry of user_state["assetPositions"]: asset.get("position", {})
read as get("coin") and get("szi"). An asset dict without a "position"
key behaves as the entry with both fields absent. -/
structure PosData where
  coin : Option String
  szi : RawNum
deriving DecidableEq

/-- The externally queried account state as update_from_api reads it:
falsy, lacking the "assetPositions" key, or carrying a list of
entries. -/
inductive UserState where
  | falsy
  | noAssetPositions
  | assets (l : List PosData)
deriving DecidableEq

/-- The scan loop inside update_from_api: new_pos starts at 0, the first
entry whose coin matches sets it (0 when its szi fails to parse; the
absent key defaults to 0) and breaks. -/
def findPos (coin : String) : List PosData → ℚ
  | [] => 0
  | p :: rest =>
    if p.coin = some coin then
      match floatOfGet p.szi 0 with
      | none => 0
      | some v => v
    else findPos coin rest

/-- PositionTracker.update_from_api (market_maker.py lines 184-205;
identical in mm_simple.py). The query outcome is none when the external
call raises (local position retained), some u on success (local position
overwritten with the scanned value). Returns the resulting position. -/
def update_from_api (coin : String) (position : ℚ) (query : Option UserState) : ℚ :=
  match query with
  | none => position
  | some u =>
    match u with
    | .falsy => 0
    | .noAssetPositions => 0
    | .assets l => findPos coin l

/-- Outcome of one exchange.cancel call: status "ok", any other / falsy
response, or a raised exception (caught per order). -/
inductive CancelResp where
  | ok
  | notOk
  | exn
deriving DecidableEq

/-- The per-oid loop of OrderManager.cancel_all: on an "ok" response the
oid is discarded from the set and counted; otherwise (including a raised
exception) the oid is kept and recorded as failed. -/
def cancel_loop (resp : ℤ → CancelResp) (oids : List ℤ) (open_oids : List ℤ)
    (cancelled : ℕ) : ℕ × List ℤ :=
  match oids with
  | [] => (cancelled, open_oids)
  | oid :: rest =>
    match resp oid with
    | .ok => cancel_loop resp rest (open_oids.erase oid) (cancelled + 1)
    | _ => cancel_loop resp rest open_oids cancelled

/-- OrderManager.cancel_all (market_maker.py lines 238-260; identical in
mm_simple.py): snapshots the tracked open-oid set, returns 0 at once if
it is empty, otherwise runs the per-oid loop. Returns the confirmed
count and the resulting tracked set. -/
def cancel_all (resp : ℤ → CancelResp) (open_oids : List ℤ) : ℕ × List ℤ :=
  if open_oids = [] then (0, open_oids)
  else cancel_loop resp open_oids open_oids 0

/-- One per-order status inside a bulk_orders response: "resting" with an
oid, "error" with a message, or anything else. -/
inductive OStatus where
  | resting (oid : ℤ)
  | err (msg : String)
  | other
deriving DecidableEq

/-- A bulk_orders response dict: its top-level "status" and the list at
response.data.statuses (absent keys yield the empty list). -/
structure BulkResp where
  status : String
  statuses : List OStatus
deriving DecidableEq

/-- Outcome of the exchange.bulk_orders call: a raised exception, a falsy
response, or a response dict. -/
inductive BulkResult where
  | exn
  | falsy
  | resp (r : BulkResp)
deriving DecidableEq

/-- Python set.add on the tracked oid set, modelled on a duplicate-free
list. -/
def setAdd (s : List ℤ) (oid : ℤ) : List ℤ :=
  if oid ∈ s then s else s ++ [oid]

/-- The oids of the "resting" statuses, in order. -/
def restingOids (statuses : List OStatus) : List ℤ :=
  statuses.filterMap fun st =>
    match st with
    | .resting oid => some oid
    | _ => none

/-- The accumulation loop inside place_orders: a "resting" status appends
its oid to the returned list and adds it to the tracked set; every other
status leaves both alone. -/
def place_loop (statuses : List OStatus) (acc : List ℤ × List ℤ) : List ℤ × List ℤ :=
  statuses.foldl
    (fun acc st =>
      match st with
      | .resting oid => (acc.1 ++ [oid], setAdd acc.2 oid)
      | _ => acc)
    acc

/-- OrderManager.place_orders (market_maker.py lines 262-283; identical
in mm_simple.py): empty batch returns [] untouched; a raised call, falsy
response or non-"ok" top-level status returns [] leaving the tracked set
untouched; otherwise the per-status loop runs. Returns the new oids and
the resulting tracked set. -/
def place_orders {α : Type} (orders : List α) (result : BulkResult)
    (open_oids : List ℤ) : List ℤ × List ℤ :=
  if orders.isEmpty then ([], open_oids)
  else
    match result with
    | .exn => ([], open_oids)
    | .falsy => ([], open_oids)
    | .resp r =>
      if r.status ≠ "ok" then ([], open_oids)
      else place_loop r.statuses ([], open_oids)

/-- The Python round function: round half to even, as used by round_to_tick. -/
def pyRound (x : ℚ) : ℤ :=
  let f := ⌊x⌋
  if x - f < 1/2 then f
  else if 1/2 < x - f then f + 1
  else if f % 2 = 0 then f else f + 1

/-- round_to_tick (market_maker.py lines 98-99, mm_simple.py lines 76-78,
order_book_vwap_mm.py lines 119-120): round(price / tick_size) *
tick_size. -/
def round_to_tick (price t : ℚ) : ℚ :=
  (pyRound (price / t) : ℚ) * t

/-- A book level as vwap reads it: a dict with "px" and "sz" fields, or
something failing isinstance(level, dict). -/
inductive BookLevel where
  | dict (px sz : RawNum)
  | nonDict
deriving DecidableEq

/-- The per-level validation inside vwap: non-dicts, levels missing
"px" or "sz", and levels whose px or sz fails float() are skipped
(none); a well-formed level yields its (px, sz) pair. -/
def parseLevel : BookLevel → Option (ℚ × ℚ)
  | .nonDict => none
  | .dict .absent _ => none
  | .dict _ .absent => none
  | .dict .bad _ => none
  | .dict _ .bad => none
  | .dict (.val p) (.val s) => some (p, s)

/-- One step of the vwap accumulation over (total_px_vol, total_vol): a
skipped level leaves the totals alone. -/
def vwap_step (acc : ℚ × ℚ) (level : BookLevel) : ℚ × ℚ :=
  match parseLevel level with
  | none => acc
  | some (p, s) => (acc.1 + p * s, acc.2 + s)

/-- vwap (order_book_vwap_mm.py lines 122-144): fallback on an empty
list; otherwise accumulate px*sz and sz over the first n levels,
skipping malformed ones, and return total_px_vol / total_vol when
total_vol > 0, else the fallback. -/
def vwap (levels : List BookLevel) (n : ℕ) (fallback : ℚ) : ℚ :=
  if levels = [] then fallback
  else
    let totals := (levels.take n).foldl vwap_step (0, 0)
    if totals.2 > 0 then totals.1 / totals.2 else fallback

/-- The total parsed size among the first n levels (the claim "total
size" that must be positive for a VWAP to be returned). -/
def totalVol (levels : List BookLevel) (n : ℕ) : ℚ :=
  (((levels.take n).filterMap parseLevel).map (fun e => e.2)).sum

/-- The VWAP of an already-parsed list of (px, sz) pairs, following the
wording of the spec: volume-weighted average price, falling back when the total
volume is not positive. -/
def vwapParsed (ps : List (ℚ × ℚ)) (fallback : ℚ) : ℚ :=
  let tot := (ps.map (fun e => e.2)).sum
  if tot > 0 then (ps.map (fun e => e.1 * e.2)).sum / tot else fallback

/-- A record of one processed fill (FillRecord in market_maker.py,
lines 101-110). -/
structure FillRecord where
  timestamp : ℚ
  side : String
  size : ℚ
  execution_price : ℚ
  mid_price : ℚ
  position_after : ℚ
  pnl_incremental : ℚ
deriving DecidableEq

/-- The live state that fill processing touches in market_maker.py: the
tracked position, Metrics.total_pnl, the fill ledger,
Metrics.fills_received and Metrics.last_fill_time. -/
structure MMState where
  position : ℚ
  total_pnl : ℚ
  fill_records : List FillRecord
  fills_received : ℕ
  last_fill_time : ℚ
deriving DecidableEq

/-- EnhancedMarketMaker.handle_user_fills (market_maker.py lines
494-550): skips non-dicts, fills flagged isSnapshot, fills missing
side/sz/px, other instruments and unparsable numbers; otherwise applies
the fill to the position, computes the incremental PnL against the
latest known mid (execution price when none), appends a record and
updates the metrics. latest_mid and now stand for get_latest_mid() and
time.time(). -/
def handle_user_fills (latest_mid : Option ℚ) (now : ℚ) (st : MMState)
    (fill : FillObj) : MMState :=
  match fill with
  | .nonDict => st
  | .dict f =>
    if f.isSnapshot then st
    else if f.side = none ∨ f.sz = .absent ∨ f.px = .absent then st
    else if f.coin ≠ some COIN then st
    else
      match f.side, floatOfGet f.sz 0, floatOfGet f.px 0 with
      | some side, some size, some exec_price =>
        let position_after := update_from_fill COIN st.position (.dict f)
        let mid := latest_mid.getD exec_price
        let pnl_inc :=
          if side = "B" then (mid - exec_price) * size
          else (exec_price - mid) * size
        { position := position_after
          total_pnl := st.total_pnl + pnl_inc
          fill_records := st.fill_records ++
            [⟨now, side, size, exec_price, mid, position_after, pnl_inc⟩]
          fills_received := st.fills_received + 1
          last_fill_time := now }
      | _, _, _ => st

/-- The "data" payload of a userFills message: a dict (with the
truthiness of its "isSnapshot" key and its "fills" list, empty when the
key is absent), a bare list of fills, or anything else. -/
inductive FillsData where
  | dict (isSnapshot : Bool) (fills : List FillObj)
  | list (fills : List FillObj)
  | other
deriving DecidableEq

/-- The userFills dispatch in EnhancedMarketMaker.run (market_maker.py
lines 672-686): a payload whose isSnapshot is truthy is skipped whole;
otherwise every contained fill goes through handle_user_fills. -/
def dispatch_user_fills (latest_mid : Option ℚ) (now : ℚ) (st : MMState)
    (d : FillsData) : MMState :=
  match d with
  | .dict true _ => st
  | .dict false fills => fills.foldl (handle_user_fills latest_mid now) st
  | .list fills => fills.foldl (handle_user_fills latest_mid now) st
  | .other => st

/-- The live state fill processing touches in mm_simple.py: the
tracked position and Metrics.fills_received. -/
structure SimpleState where
  position : ℚ
  fills_received : ℕ
deriving DecidableEq

/-- SimpleMarketMaker.handle_user_fills (mm_simple.py lines 342-351):
skips non-dicts and fills missing side/sz, then applies the fill to the
position and counts it. There is no isSnapshot check. -/
def simple_handle_user_fills (st : SimpleState) (fill : FillObj) : SimpleState :=
  match fill with
  | .nonDict => st
  | .dict f =>
    if f.side = none ∨ f.sz = .absent then st
    else
      { position := update_from_fill COIN st.position (.dict f)
        fills_received := st.fills_received + 1 }

/-- The userFills dispatch in SimpleMarketMaker.run (mm_simple.py lines
425-431): a dict payload is unwrapped to its "fills" list and every
contained fill is processed; the isSnapshot flag is never consulted. -/
def simple_dispatch_user_fills (st : SimpleState) (d : FillsData) : SimpleState :=
  match d with
  | .dict _ fills => fills.foldl simple_handle_user_fills st
  | .list fills => fills.foldl simple_handle_user_fills st
  | .other => st

/-- EnhancedMarketMaker.compute_volatility (market_maker.py lines
345-353): 0 for fewer than 3 buffered samples, otherwise the population
standard deviation of the buffered mid prices divided by their mean (0
if the mean is not positive). -/
noncomputable def compute_volatility (price_buffer : List (ℚ × ℚ)) : ℝ :=
  let n := price_buffer.length
  if n < 3 then 0
  else
    let prices : List ℝ := price_buffer.map (fun e => (e.2 : ℝ))
    let mean := prices.sum / (n : ℝ)
    let var := (prices.map (fun p => (p - mean) ^ 2)).sum / (n : ℝ)
    let sigma := Real.sqrt var
    if mean > 0 then sigma / mean else 0

/-- Population mean, following the wording of the spec (for comparison with
compute_volatility). -/
noncomputable def populationMean (xs : List ℝ) : ℝ := xs.sum / (xs.length : ℝ)

/-- Population standard deviation, following the wording of the spec (for
comparison with compute_volatility). -/
noncomputable def populationStdDev (xs : List ℝ) : ℝ :=
  Real.sqrt ((xs.map (fun x => (x - populationMean xs) ^ 2)).sum / (xs.length : ℝ))

/-- EnhancedMarketMaker.dynamic_spread_pct (market_maker.py lines
355-360): base plus VOL_SCALE times the relative volatility, clamped to
[MIN_SPREAD_PCT, MAX_SPREAD_PCT]. -/
noncomputable def dynamic_spread_pct (price_buffer : List (ℚ × ℚ)) (base : ℚ) : ℝ :=
  let rel_vol := compute_volatility price_buffer
  let extra := (VOL_SCALE : ℝ) * rel_vol
  let spread := (base : ℝ) + extra
  max (MIN_SPREAD_PCT : ℝ) (min spread (MAX_SPREAD_PCT : ℝ))

/-- EnhancedMarketMaker.compute_skewed_spreads (market_maker.py lines
362-369): equal spreads at zero position; otherwise the position ratio
pos / MAX_POSITION is clamped to [-1, 1] and the side opposing the
inventory is widened by POSITION_SKEW_FACTOR times the ratio. The mid
argument is unused, as in the source. Returns (bid_spread,
ask_spread). -/
noncomputable def compute_skewed_spreads (mid spread_pct pos : ℝ) : ℝ × ℝ :=
  if pos = 0 then (spread_pct, spread_pct)
  else
    -- pos_ratio before and after clamping
    let pr := if (MAX_POSITION : ℝ) > 0 then pos / (MAX_POSITION : ℝ) else 0
    let prc := max (-1) (min 1 pr)
    let bid_spread := spread_pct * (1 + (POSITION_SKEW_FACTOR : ℝ) * max 0 (-prc))
    let ask_spread := spread_pct * (1 + (POSITION_SKEW_FACTOR : ℝ) * max 0 prc)
    (bid_spread, ask_spread)

/-- The Python round function over the reals, for the prices computed inside
handle_l2book. -/
noncomputable def pyRoundR (x : ℝ) : ℤ :=
  let f := ⌊x⌋
  if x - f < 1/2 then f
  else if 1/2 < x - f then f + 1
  else if f % 2 = 0 then f else f + 1

/-- round_to_tick over the reals, for the prices computed inside
handle_l2book. -/
noncomputable def round_to_tickR (price t : ℝ) : ℝ :=
  (pyRoundR (price / t) : ℝ) * t

/-- An order dict built by handle_l2book (coin, is_buy, limit_px, sz,
reduce_only, post_only; order_type is the constant Gtc limit). -/
structure OrderReq where
  coin : String
  is_buy : Bool
  limit_px : ℝ
  sz : ℚ
  reduce_only : Bool
  post_only : Bool

/-- A book level as handle_l2book reads it: only its "px" field is
accessed; any failure (non-dict, missing key, bad number) raises and is
caught. -/
inductive L2Level where
  | dict (px : RawNum)
  | nonDict
deriving DecidableEq

/-- float(side[0]["px"]) on a book side, none when it raises. -/
def parse_best : List L2Level → Option ℚ
  | [] => none
  | .nonDict :: _ => none
  | .dict .absent :: _ => none
  | .dict .bad :: _ => none
  | .dict (.val p) :: _ => some p

/-- The quoting state handle_l2book reads: the price-sample buffer of
(timestamp, mid) pairs, last_mid and last_quote_time. -/
structure QuoteState where
  price_buffer : List (ℚ × ℚ)
  last_mid : Option ℚ
  last_quote_time : ℚ

/-- EnhancedMarketMaker.update_price_buffer (market_maker.py lines
331-336): append the new sample on the right, then pop samples older
than VOL_WINDOW_SECONDS from the left. -/
def update_price_buffer (buf : List (ℚ × ℚ)) (now mid : ℚ) : List (ℚ × ℚ) :=
  (buf ++ [(now, mid)]).dropWhile (fun e => e.1 < now - VOL_WINDOW_SECONDS)

/-- EnhancedMarketMaker.handle_l2book (market_maker.py lines 371-476),
as the batch of new orders it submits on this book update (the empty
list when every path suppresses order generation: malformed book,
debounce, the hard position stop, the notional floor, both sides
suppressed by the position bounds, or the minimum hold time). pos and
now stand for the tracked position and time.time(); the wildcard match
arm covers len(levels) < 2. DRY_RUN is False in the source. -/
noncomputable def handle_l2book (st : QuoteState) (pos now : ℚ)
    (levels : List (List L2Level)) : List OrderReq :=
  match levels with
  | bids :: asks :: _ =>
    if bids.isEmpty || asks.isEmpty then []
    else
      match parse_best bids, parse_best asks with
      | some best_bid, some best_ask =>
        let mid := (best_bid + best_ask) / 2
        let buf := update_price_buffer st.price_buffer now mid
        let spread_pct := dynamic_spread_pct buf BASE_SPREAD_PCT
        let debounce : Bool :=
          match st.last_mid with
          | some lm =>
            decide (|mid - lm| / max lm 1 < 2/10000) &&
              decide (now - st.last_quote_time < MIN_HOLD_SECONDS)
          | none => false
        if debounce then []
        else if |pos| > STOP_TRADING_THRESHOLD then []
        else
          let sp := compute_skewed_spreads (mid : ℝ) spread_pct (pos : ℝ)
          let buy_px := round_to_tickR ((mid : ℝ) * (1 - sp.1)) (tick_size : ℝ)
          let sell_px := round_to_tickR ((mid : ℝ) * (1 + sp.2)) (tick_size : ℝ)
          if BASE_SIZE * mid < MIN_ORDER_NOTIONAL then []
          else
            let can_place_buy := pos + BASE_SIZE ≤ MAX_POSITION
            let can_place_sell := pos - BASE_SIZE ≥ -MAX_POSITION
            let orders : List OrderReq :=
              (if can_place_buy then [⟨COIN, true, buy_px, BASE_SIZE, false, true⟩] else [])
              ++ (if can_place_sell then [⟨COIN, false, sell_px, BASE_SIZE, false, true⟩] else [])
            if orders.isEmpty then []
            else if now - st.last_quote_time < MIN_HOLD_SECONDS ∧ st.last_quote_time > 0 then []
            else orders
      | _, _ => []
  | _ => []

/-! ## Theorems -/

/-- Each fill moves the position by its buy size minus its sell size. -/
theorem update_from_fill_delta (coin : String) (p : ℚ) (f : FillObj) :
    update_from_fill coin p f = p + buySize coin f - sellSize coin f := by
  cases f with
  | nonDict => simp [update_from_fill, buySize, sellSize]
  | dict f =>
    simp only [update_from_fill, buySize, sellSize, ne_eq, ite_not]
    by_cases hc : f.coin = some coin
    · cases hsz : floatOfGet f.sz 0 with
      | none => simp [hc, hsz]
      | some sz =>
        by_cases hb : f.side = some "B"
        · have : f.side ≠ some "A" := by simp [hb]
          simp [hc, hsz, hb, this]
        · by_cases ha : f.side = some "A" <;> simp [hc, hsz, hb, ha]
    · simp [hc]

/-- Folding update_from_fill over a fill list adds the net signed
size. -/
theorem foldl_update_from_fill (coin : String) (p0 : ℚ) (fills : List FillObj) :
    fills.foldl (update_from_fill coin) p0
      = p0 + (fills.map (buySize coin)).sum - (fills.map (sellSize coin)).sum := by
  induction fills generalizing p0 with
  | nil => simp
  | cons f rest ih =>
    simp only [List.foldl_cons, List.map_cons, List.sum_cons]
    rw [ih, update_from_fill_delta]
    ring

/-- Claim C3: over any sequence of fills applied through
PositionTracker.update_from_fill, the position equals the starting value
plus the sum of buy-side sizes minus the sum of sell-side sizes, and a
fill for another instrument, with an unparsable size, or with a side
other than "B"/"A" leaves the position unchanged. -/
theorem C3_position_is_net_fill_sum (coin : String) (p0 : ℚ) (fills : List FillObj) :
    fills.foldl (update_from_fill coin) p0
        = p0 + (fills.map (buySize coin)).sum - (fills.map (sellSize coin)).sum ∧
    (∀ (f : Fill) (p : ℚ), f.coin ≠ some coin →
      update_from_fill coin p (.dict f) = p) ∧
    (∀ (f : Fill) (p : ℚ), floatOfGet f.sz 0 = none →
      update_from_fill coin p (.dict f) = p) ∧
    (∀ (f : Fill) (p : ℚ), f.side ≠ some "B" → f.side ≠ some "A" →
      update_from_fill coin p (.dict f) = p) := by
  refine ⟨foldl_update_from_fill coin p0 fills, ?_, ?_, ?_⟩
  · intro f p hc
    simp [update_from_fill, hc]
  · intro f p hsz
    by_cases hc : f.coin = some coin <;> simp [update_from_fill, hc, hsz]
  · intro f p hb ha
    by_cases hc : f.coin = some coin <;>
      cases hsz : floatOfGet f.sz 0 <;>
        simp [update_from_fill, hc, hsz, hb, ha]

/-- Concrete run for C3: a buy of 2, a sell of 1/2, a foreign-coin fill,
an unparsable size and an unknown side net to +3/2 from a start of 1. -/
theorem C3_position_is_net_fill_sum_witness :
    [FillObj.dict ⟨some "BTC", some "B", .val 2, .val 100, false⟩,
     FillObj.dict ⟨some "BTC", some "A", .val (1/2), .val 100, false⟩,
     FillObj.dict ⟨some "ETH", some "B", .val 7, .val 100, false⟩,
     FillObj.dict ⟨some "BTC", some "B", .bad, .val 100, false⟩,
     FillObj.dict ⟨some "BTC", some "X", .val 9, .val 100, false⟩].foldl
        (update_from_fill "BTC") 1 = 5/2 :=
  ((C3_position_is_net_fill_sum "BTC" 1 _).1).trans
    (by simp [buySize, sellSize, floatOfGet]; norm_num)

/-- findPos returns 0 when no entry matches the tracked instrument. -/
theorem findPos_eq_zero_of_no_match (coin : String) (l : List PosData)
    (h : ∀ e ∈ l, e.coin ≠ some coin) : findPos coin l = 0 := by
  induction l with
  | nil => rfl
  | cons p rest ih =>
    have hp := h p (by simp)
    simp only [findPos, if_neg hp]
    exact ih fun e he => h e (by simp [he])

/-- findPos returns the parsed size of the first matching entry. -/
theorem findPos_first_match (coin : String) (l1 : List PosData) (e : PosData)
    (l2 : List PosData) (v : ℚ) (h1 : ∀ x ∈ l1, x.coin ≠ some coin)
    (he : e.coin = some coin) (hv : floatOfGet e.szi 0 = some v) :
    findPos coin (l1 ++ e :: l2) = v := by
  induction l1 with
  | nil => simp [findPos, he, hv]
  | cons p rest ih =>
    have hp := h1 p (by simp)
    simp only [List.cons_append, findPos, if_neg hp]
    exact ih fun x hx => h1 x (by simp [hx])

/-- Claim C4: a successful reconciliation overwrites the local position
with the externally reported signed size of the tracked instrument,
regardless of the prior local value, and with 0 when no entry for the
instrument is present (or the account state is falsy / lacks the
assetPositions key). -/
theorem C4_reconcile_overwrites (coin : String) :
    (∀ (p1 p2 : ℚ) (u : UserState),
      update_from_api coin p1 (some u) = update_from_api coin p2 (some u)) ∧
    (∀ p : ℚ, update_from_api coin p (some .falsy) = 0) ∧
    (∀ p : ℚ, update_from_api coin p (some .noAssetPositions) = 0) ∧
    (∀ (p : ℚ) (l : List PosData), (∀ e ∈ l, e.coin ≠ some coin) →
      update_from_api coin p (some (.assets l)) = 0) ∧
    (∀ (p : ℚ) (l1 : List PosData) (e : PosData) (l2 : List PosData) (v : ℚ),
      (∀ x ∈ l1, x.coin ≠ some coin) → e.coin = some coin →
      floatOfGet e.szi 0 = some v →
      update_from_api coin p (some (.assets (l1 ++ e :: l2))) = v) := by
  refine ⟨?_, fun _ => rfl, fun _ => rfl, ?_, ?_⟩
  · intro p1 p2 u
    cases u <;> rfl
  · intro p l h
    simpa [update_from_api] using findPos_eq_zero_of_no_match coin l h
  · intro p l1 e l2 v h1 he hv
    simpa [update_from_api] using findPos_first_match coin l1 e l2 v h1 he hv

/-- Concrete run for C4: a prior local position of 5 is overwritten with
the externally reported -2 for BTC, skipping the ETH entry; and with an
absent BTC entry it is overwritten with 0. -/
theorem C4_reconcile_overwrites_witness :
    update_from_api "BTC" 5
        (some (.assets [⟨some "ETH", .val 7⟩, ⟨some "BTC", .val (-2)⟩, ⟨some "BTC", .val 9⟩]))
      = -2 ∧
    update_from_api "BTC" 5 (some (.assets [⟨some "ETH", .val 7⟩])) = 0 := by
  constructor
  · exact (C4_reconcile_overwrites "BTC").2.2.2.2 5 [⟨some "ETH", .val 7⟩]
      ⟨some "BTC", .val (-2)⟩ [⟨some "BTC", .val 9⟩] (-2) (by decide) rfl rfl
  · exact (C4_reconcile_overwrites "BTC").2.2.2.1 5 [⟨some "ETH", .val 7⟩] (by decide)

/-- The confirmed count of the cancel loop is the number of "ok"
responses among the snapshotted oids. -/
theorem cancel_loop_fst (resp : ℤ → CancelResp) (oids : List ℤ) :
    ∀ (s : List ℤ) (c : ℕ),
      (cancel_loop resp oids s c).1
        = c + (oids.filter fun o => decide (resp o = .ok)).length := by
  induction oids with
  | nil => intro s c; simp [cancel_loop]
  | cons o rest ih =>
    intro s c
    cases h : resp o with
    | ok => simp [cancel_loop, h, ih]; omega
    | notOk => simp [cancel_loop, h, ih]
    | exn => simp [cancel_loop, h, ih]

/-- An oid absent from the remaining work list survives at the head of
the tracked set. -/
theorem cancel_loop_snd_cons (resp : ℤ → CancelResp) (oids : List ℤ) :
    ∀ (x : ℤ) (s : List ℤ) (c : ℕ), x ∉ oids →
      (cancel_loop resp oids (x :: s) c).2 = x :: (cancel_loop resp oids s c).2 := by
  induction oids with
  | nil => intro x s c _; rfl
  | cons o rest ih =>
    intro x s c hx
    have hxo : x ≠ o := fun h => hx (by simp [h])
    have hxr : x ∉ rest := fun h => hx (by simp [h])
    cases h : resp o with
    | ok =>
      have herase : (x :: s).erase o = x :: s.erase o := by
        simp [List.erase_cons, hxo]
      simp [cancel_loop, h, herase, ih x _ _ hxr]
    | notOk => simp [cancel_loop, h, ih x _ _ hxr]
    | exn => simp [cancel_loop, h, ih x _ _ hxr]

/-- Running the cancel loop over a duplicate-free snapshot leaves
exactly the non-confirmed oids in the tracked set. -/
theorem cancel_loop_snd (resp : ℤ → CancelResp) (oids : List ℤ)
    (h : oids.Nodup) :
    ∀ c : ℕ, (cancel_loop resp oids oids c).2
      = oids.filter fun o => decide (¬ resp o = .ok) := by
  induction oids with
  | nil => intro c; rfl
  | cons o rest ih =>
    intro c
    rw [List.nodup_cons] at h
    cases hr : resp o with
    | ok =>
      simp only [cancel_loop, hr, List.erase_cons_head]
      rw [ih h.2 (c + 1)]
      simp [hr]
    | notOk =>
      simp only [cancel_loop, hr]
      rw [cancel_loop_snd_cons resp rest o rest c h.1, ih h.2 c]
      simp [hr]
    | exn =>
      simp only [cancel_loop, hr]
      rw [cancel_loop_snd_cons resp rest o rest c h.1, ih h.2 c]
      simp [hr]

/-- Claim C5: cancel_all on an empty tracked set returns 0 with the set
untouched; every oid whose cancellation is confirmed "ok" is removed
from the tracked set, every failing oid (bad response or raised
exception) is retained, and the confirmed count is returned. -/
theorem C5_cancel_all_partial_failure (resp : ℤ → CancelResp) :
    cancel_all resp [] = (0, []) ∧
    (∀ oids : List ℤ, oids.Nodup →
      (cancel_all resp oids).1 = (oids.filter fun o => decide (resp o = .ok)).length ∧
      (cancel_all resp oids).2 = (oids.filter fun o => decide (¬ resp o = .ok)) ∧
      (∀ oid ∈ oids, resp oid = .ok → oid ∉ (cancel_all resp oids).2) ∧
      (∀ oid ∈ oids, resp oid ≠ .ok → oid ∈ (cancel_all resp oids).2)) := by
  refine ⟨by simp [cancel_all], ?_⟩
  intro oids hd
  by_cases hnil : oids = []
  · subst hnil
    refine ⟨by simp [cancel_all], by simp [cancel_all], by simp, by simp⟩
  · have h1 : (cancel_all resp oids).1
        = (oids.filter fun o => decide (resp o = .ok)).length := by
      simp only [cancel_all, if_neg hnil]
      simpa using cancel_loop_fst resp oids oids 0
    have h2 : (cancel_all resp oids).2
        = (oids.filter fun o => decide (¬ resp o = .ok)) := by
      simp only [cancel_all, if_neg hnil]
      exact cancel_loop_snd resp oids hd 0
    refine ⟨h1, h2, ?_, ?_⟩
    · intro oid _ hok
      rw [h2]
      simp [hok]
    · intro oid hmem hne
      rw [h2]
      simp [List.mem_filter, hmem, hne]

/-- Concrete run for C5: with oid 1 confirmed, oid 2 rejected and oid 3
raising, cancel_all reports one confirmed cancel and keeps exactly oids
2 and 3. -/
theorem C5_cancel_all_partial_failure_witness :
    cancel_all (fun o => if o = 1 then .ok else if o = 2 then .notOk else .exn)
        [1, 2, 3]
      = (1, [2, 3]) := by
  have h := (C5_cancel_all_partial_failure
    (fun o => if o = 1 then .ok else if o = 2 then .notOk else .exn)).2
    [1, 2, 3] (by decide)
  have h1 := h.1
  have h2 := h.2.1
  have : cancel_all (fun o => if o = 1 then .ok else if o = 2 then .notOk else .exn)
      [1, 2, 3]
      = ((cancel_all (fun o => if o = 1 then .ok else if o = 2 then .notOk else .exn)
          [1, 2, 3]).1,
        (cancel_all (fun o => if o = 1 then .ok else if o = 2 then .notOk else .exn)
          [1, 2, 3]).2) := rfl
  rw [this, h1, h2]
  decide

/-- Membership in the tracked set after a set.add. -/
theorem mem_setAdd (s : List ℤ) (o x : ℤ) : x ∈ setAdd s o ↔ x ∈ s ∨ x = o := by
  by_cases h : o ∈ s
  · simp only [setAdd, if_pos h]
    exact ⟨Or.inl, fun hx => hx.elim id fun he => he ▸ h⟩
  · simp [setAdd, if_neg h]

/-- Membership after folding set.add over a list of oids. -/
theorem mem_foldl_setAdd (l : List ℤ) :
    ∀ (s : List ℤ) (x : ℤ), x ∈ l.foldl setAdd s ↔ x ∈ s ∨ x ∈ l := by
  induction l with
  | nil => simp
  | cons o rest ih =>
    intro s x
    rw [List.foldl_cons, ih, mem_setAdd]
    simp only [List.mem_cons]
    tauto

/-- The status loop of place_orders appends exactly the resting oids to
the returned list and set.adds them to the tracked set. -/
theorem place_loop_spec (statuses : List OStatus) :
    ∀ a s : List ℤ,
      place_loop statuses (a, s)
        = (a ++ restingOids statuses, (restingOids statuses).foldl setAdd s) := by
  induction statuses with
  | nil => intro a s; simp [place_loop, restingOids]
  | cons st rest ih =>
    intro a s
    cases st with
    | resting oid =>
      have hstep : place_loop (OStatus.resting oid :: rest) (a, s)
          = place_loop rest (a ++ [oid], setAdd s oid) := rfl
      rw [hstep, ih]
      simp [restingOids, List.filterMap_cons]
    | err msg =>
      have hstep : place_loop (OStatus.err msg :: rest) (a, s)
          = place_loop rest (a, s) := rfl
      rw [hstep, ih]
      simp [restingOids, List.filterMap_cons]
    | other =>
      have hstep : place_loop (OStatus.other :: rest) (a, s)
          = place_loop rest (a, s) := rfl
      rw [hstep, ih]
      simp [restingOids, List.filterMap_cons]

/-- Claim C6: place_orders is atomic on failure — an empty batch, a
raised placement call, a falsy response or a non-"ok" top-level status
all return the empty oid list with the tracked set exactly as before;
on an "ok" response the returned oids are exactly the "resting" ones and
the tracked set gains exactly those oids. -/
theorem C6_place_orders_atomic :
    (∀ (α : Type) (result : BulkResult) (s : List ℤ),
      place_orders ([] : List α) result s = ([], s)) ∧
    (∀ (α : Type) (orders : List α) (s : List ℤ),
      place_orders orders .exn s = ([], s)) ∧
    (∀ (α : Type) (orders : List α) (s : List ℤ),
      place_orders orders .falsy s = ([], s)) ∧
    (∀ (α : Type) (orders : List α) (r : BulkResp) (s : List ℤ),
      r.status ≠ "ok" → place_orders orders (.resp r) s = ([], s)) ∧
    (∀ (α : Type) (orders : List α) (r : BulkResp) (s : List ℤ),
      orders ≠ [] → r.status = "ok" →
      (place_orders orders (.resp r) s).1 = restingOids r.statuses ∧
      (∀ x : ℤ, x ∈ (place_orders orders (.resp r) s).2
        ↔ x ∈ s ∨ x ∈ restingOids r.statuses)) := by
  refine ⟨?_, ?_, ?_, ?_, ?_⟩
  · intro α result s
    cases result <;> rfl
  · intro α orders s
    unfold place_orders
    split <;> rfl
  · intro α orders s
    unfold place_orders
    split <;> rfl
  · intro α orders r s h
    unfold place_orders
    split
    · rfl
    · simp [h]
  · intro α orders r s horders hok
    have hne : orders.isEmpty = false := by
      simpa [List.isEmpty_iff] using horders
    have hres : place_orders orders (.resp r) s = place_loop r.statuses ([], s) := by
      simp [place_orders, hne, hok]
    rw [hres, place_loop_spec]
    exact ⟨by simp, fun x => by simpa using mem_foldl_setAdd (restingOids r.statuses) s x⟩

/-- Concrete run for C6: a batch of one order, an "ok" response with
statuses resting 10, error, other, resting 11, and prior set [5, 10]:
the returned oids are [10, 11] and 11 joins the tracked set. -/
theorem C6_place_orders_atomic_witness :
    (place_orders [0]
        (.resp ⟨"ok", [.resting 10, .err "x", .other, .resting 11]⟩)
        ([5, 10] : List ℤ)).1 = [10, 11] ∧
    (11 : ℤ) ∈ (place_orders [0]
        (.resp ⟨"ok", [.resting 10, .err "x", .other, .resting 11]⟩)
        ([5, 10] : List ℤ)).2 := by
  have h := C6_place_orders_atomic.2.2.2.2 ℕ [0]
    ⟨"ok", [.resting 10, .err "x", .other, .resting 11]⟩ [5, 10] (by simp) rfl
  exact ⟨h.1.trans (by decide), (h.2 11).mpr (by decide)⟩

/-- The Python round function of an integer is that integer. -/
theorem pyRound_intCast (k : ℤ) : pyRound (k : ℚ) = k := by
  unfold pyRound
  norm_num [Int.floor_intCast]

/-- Claim C9: for a positive tick size, rounding a price that is already
an exact multiple of the tick returns it unchanged, every rounded price
is an exact multiple of the tick, and round_to_tick is idempotent. -/
theorem C9_round_to_tick_idempotent (t : ℚ) (ht : 0 < t) :
    (∀ k : ℤ, round_to_tick ((k : ℚ) * t) t = (k : ℚ) * t) ∧
    (∀ p : ℚ, ∃ m : ℤ, round_to_tick p t = (m : ℚ) * t) ∧
    (∀ p : ℚ, round_to_tick (round_to_tick p t) t = round_to_tick p t) := by
  have hne : t ≠ 0 := ne_of_gt ht
  have hmult : ∀ k : ℤ, round_to_tick ((k : ℚ) * t) t = (k : ℚ) * t := by
    intro k
    unfold round_to_tick
    rw [mul_div_assoc, div_self hne, mul_one, pyRound_intCast]
  exact ⟨hmult, fun p => ⟨pyRound (p / t), rfl⟩, fun p => hmult (pyRound (p / t))⟩

/-- Concrete run for C9: with tick 1 (the BTC tick size), rounding 7/2
twice equals rounding it once. -/
theorem C9_round_to_tick_idempotent_witness :
    (0 : ℚ) < 1 ∧ round_to_tick (round_to_tick (7/2) 1) 1 = round_to_tick (7/2) 1 :=
  ⟨by norm_num, (C9_round_to_tick_idempotent 1 (by norm_num)).2.2 (7/2)⟩

/-- The vwap accumulation computes the sums of px*sz and sz over the
parseable levels. -/
theorem foldl_vwap_step (levels : List BookLevel) :
    ∀ a b : ℚ,
      levels.foldl vwap_step (a, b)
        = (a + ((levels.filterMap parseLevel).map fun e => e.1 * e.2).sum,
           b + ((levels.filterMap parseLevel).map fun e => e.2).sum) := by
  induction levels with
  | nil => intro a b; simp
  | cons l rest ih =>
    intro a b
    rw [List.foldl_cons]
    cases hp : parseLevel l with
    | none =>
      have hstep : vwap_step (a, b) l = (a, b) := by simp [vwap_step, hp]
      rw [hstep, ih, List.filterMap_cons_none hp]
    | some pr =>
      obtain ⟨p0, s0⟩ := pr
      have hstep : vwap_step (a, b) l = (a + p0 * s0, b + s0) := by
        simp [vwap_step, hp]
      rw [hstep, ih, List.filterMap_cons_some hp]
      simp [add_assoc]

/-- Claim C10: vwap of an empty level list returns the fallback for
every fallback; it returns the fallback whenever the total parsed size
among the first n levels is not positive; and malformed levels are
skipped — the result only depends on the levels that parse. -/
theorem C10_vwap_fallback :
    (∀ (n : ℕ) (fallback : ℚ), vwap [] n fallback = fallback) ∧
    (∀ (levels : List BookLevel) (n : ℕ) (fallback : ℚ),
      totalVol levels n ≤ 0 → vwap levels n fallback = fallback) ∧
    (∀ (levels : List BookLevel) (n : ℕ) (fallback : ℚ),
      vwap levels n fallback
        = vwapParsed ((levels.take n).filterMap parseLevel) fallback) := by
  refine ⟨fun n fb => rfl, ?_, ?_⟩
  · intro levels n fb h
    unfold totalVol at h
    by_cases hnil : levels = []
    · simp [vwap, hnil]
    · simp only [vwap, if_neg hnil, foldl_vwap_step, zero_add]
      rw [if_neg (not_lt.mpr h)]
  · intro levels n fb
    by_cases hnil : levels = []
    · simp [vwap, vwapParsed, hnil]
    · simp only [vwap, vwapParsed, if_neg hnil, foldl_vwap_step, zero_add]

/-- Concrete run for C10: a non-dict level, a level of size 0 and a
level with an unparsable price have total parsed size 0, so vwap
returns the fallback 42. -/
theorem C10_vwap_fallback_witness :
    totalVol [BookLevel.nonDict, .dict (.val 5) (.val 0), .dict .bad (.val 3)] 5 ≤ 0 ∧
    vwap [BookLevel.nonDict, .dict (.val 5) (.val 0), .dict .bad (.val 3)] 5 42 = 42 :=
  ⟨by norm_num [totalVol, parseLevel, List.filterMap_cons],
   C10_vwap_fallback.2.1 _ 5 42
     (by norm_num [totalVol, parseLevel, List.filterMap_cons])⟩

/-- Claim C2: in the enhanced market maker a fills payload flagged
isSnapshot is skipped whole by the run dispatch, and a single fill
flagged isSnapshot is skipped by handle_user_fills — position, PnL,
ledger and metrics are untouched. But the simple market maker never
consults the flag: dispatching a snapshot payload containing one BTC buy
of size 1/1000 from a flat state moves its position to 1/1000 and counts
the fill, contradicting the claim for the cited mm_simple.py dispatch
loop. -/
theorem C2_snapshot_fills_divergence :
    (∀ (latest_mid : Option ℚ) (now : ℚ) (st : MMState) (fills : List FillObj),
      dispatch_user_fills latest_mid now st (.dict true fills) = st) ∧
    (∀ (latest_mid : Option ℚ) (now : ℚ) (st : MMState) (c s : Option String)
      (sz px : RawNum),
      handle_user_fills latest_mid now st (.dict ⟨c, s, sz, px, true⟩) = st) ∧
    simple_dispatch_user_fills ⟨0, 0⟩
        (.dict true [.dict ⟨some COIN, some "B", .val (1/1000), .val 50000, true⟩])
      = ⟨1/1000, 1⟩ := by
  refine ⟨fun _ _ _ _ => rfl, ?_, ?_⟩
  · intro latest_mid now st c s sz px
    simp [handle_user_fills]
  · show SimpleState.mk (update_from_fill COIN 0
      (.dict ⟨some COIN, some "B", .val (1/1000), .val 50000, true⟩)) 1 = _
    norm_num [update_from_fill, floatOfGet]

/-- A list of equal real values sums to its length times the value. -/
theorem list_sum_const (l : List ℝ) (c : ℝ) (h : ∀ x ∈ l, x = c) :
    l.sum = l.length * c := by
  induction l with
  | nil => simp
  | cons x rest ih =>
    have hx := h x (by simp)
    rw [List.sum_cons, hx, ih fun y hy => h y (by simp [hy]), List.length_cons]
    push_cast
    ring

/-- Claim C8: the volatility estimate is 0 for fewer than 3 samples, is
exactly 0 on any window of length at least 3 whose mid prices all equal
one positive value, and otherwise equals the population standard
deviation of the windowed prices divided by their mean (0 when the mean
is not positive). -/
theorem C8_volatility_zero_on_constant :
    (∀ buf : List (ℚ × ℚ), buf.length < 3 → compute_volatility buf = 0) ∧
    (∀ (buf : List (ℚ × ℚ)) (c : ℚ), 3 ≤ buf.length → 0 < c →
      (∀ e ∈ buf, e.2 = c) → compute_volatility buf = 0) ∧
    (∀ buf : List (ℚ × ℚ), 3 ≤ buf.length →
      compute_volatility buf
        = (if populationMean (buf.map fun e => ((e.2 : ℚ) : ℝ)) > 0 then
            populationStdDev (buf.map fun e => ((e.2 : ℚ) : ℝ))
              / populationMean (buf.map fun e => ((e.2 : ℚ) : ℝ))
          else 0)) := by
  have expand : ∀ buf : List (ℚ × ℚ), ¬ buf.length < 3 →
      compute_volatility buf
        = (if populationMean (buf.map fun e => ((e.2 : ℚ) : ℝ)) > 0 then
            populationStdDev (buf.map fun e => ((e.2 : ℚ) : ℝ))
              / populationMean (buf.map fun e => ((e.2 : ℚ) : ℝ))
          else 0) := by
    intro buf hn
    simp only [compute_volatility, if_neg hn, populationMean, populationStdDev,
      List.length_map]
  refine ⟨?_, ?_, fun buf h => expand buf (not_lt.mpr h)⟩
  · intro buf h
    simp only [compute_volatility, if_pos h]
  · intro buf c h3 hc hconst
    rw [expand buf (not_lt.mpr h3)]
    have hxs : ∀ x ∈ buf.map fun e => ((e.2 : ℚ) : ℝ), x = (c : ℝ) := by
      intro x hx
      obtain ⟨e, he, rfl⟩ := List.mem_map.mp hx
      exact_mod_cast congrArg (fun q : ℚ => (q : ℝ)) (hconst e he)
    have hlen : ((buf.map fun e => ((e.2 : ℚ) : ℝ)).length : ℝ) = (buf.length : ℝ) := by
      simp
    have hlenpos : (0 : ℝ) < ((buf.map fun e => ((e.2 : ℚ) : ℝ)).length : ℝ) := by
      rw [hlen]
      exact_mod_cast lt_of_lt_of_le (by norm_num) h3
    have hmean : populationMean (buf.map fun e => ((e.2 : ℚ) : ℝ)) = (c : ℝ) := by
      rw [populationMean, list_sum_const _ _ hxs]
      field_simp
    have hvarnum :
        ((buf.map fun e => ((e.2 : ℚ) : ℝ)).map
          fun x => (x - populationMean (buf.map fun e => ((e.2 : ℚ) : ℝ))) ^ 2).sum
          = 0 := by
      have : ∀ y ∈ (buf.map fun e => ((e.2 : ℚ) : ℝ)).map
          fun x => (x - populationMean (buf.map fun e => ((e.2 : ℚ) : ℝ))) ^ 2,
          y = (0 : ℝ) := by
        intro y hy
        obtain ⟨x, hx, rfl⟩ := List.mem_map.mp hy
        rw [hxs x hx, hmean]
        ring
      rw [list_sum_const _ _ this, mul_zero]
    have hstd : populationStdDev (buf.map fun e => ((e.2 : ℚ) : ℝ)) = 0 := by
      rw [populationStdDev, hvarnum, zero_div, Real.sqrt_zero]
    rw [hmean, hstd]
    have hcpos : (0 : ℝ) < (c : ℝ) := by exact_mod_cast hc
    rw [if_pos hcpos, zero_div]

/-- Concrete run for C8: a constant window of three samples at mid price
5 has volatility exactly 0. -/
theorem C8_volatility_zero_on_constant_witness :
    (3 : ℕ) ≤ ([((0 : ℚ), (5 : ℚ)), (1, 5), (2, 5)] : List (ℚ × ℚ)).length ∧
    compute_volatility [((0 : ℚ), (5 : ℚ)), (1, 5), (2, 5)] = 0 :=
  ⟨by norm_num,
   C8_volatility_zero_on_constant.2.1 [((0 : ℚ), (5 : ℚ)), (1, 5), (2, 5)] 5
     (by norm_num) (by norm_num) (by intro e he; fin_cases he <;> norm_num)⟩

/-- The skew computation away from zero position, with the positive
MAX_POSITION branch taken and the lets unfolded. -/
theorem compute_skewed_spreads_formula (mid s p : ℝ) (hp : p ≠ 0) :
    compute_skewed_spreads mid s p
      = (s * (1 + (POSITION_SKEW_FACTOR : ℝ)
            * max 0 (-(max (-1) (min 1 (p / (MAX_POSITION : ℝ)))))),
         s * (1 + (POSITION_SKEW_FACTOR : ℝ)
            * max 0 (max (-1) (min 1 (p / (MAX_POSITION : ℝ)))))) := by
  have hM : ((MAX_POSITION : ℚ) : ℝ) > 0 := by norm_num [MAX_POSITION]
  simp [compute_skewed_spreads, hp, hM]

/-- Claim C7: the skew multipliers are both the base spread at zero
position; a long position keeps the bid side at the base and strictly
widens the ask side; a short position keeps the ask side at the base and
strictly widens the bid side; the widened side is monotone in the
position and reaches base times (1 + skew factor) at and beyond the
position limit. -/
theorem C7_skew_asymmetry (mid s p : ℝ) (hs : 0 < s) :
    compute_skewed_spreads mid s 0 = (s, s) ∧
    (0 < p → (compute_skewed_spreads mid s p).1 = s
      ∧ s < (compute_skewed_spreads mid s p).2) ∧
    (p < 0 → (compute_skewed_spreads mid s p).2 = s
      ∧ s < (compute_skewed_spreads mid s p).1) ∧
    (∀ p1 p2 : ℝ, 0 ≤ p1 → p1 ≤ p2 →
      (compute_skewed_spreads mid s p1).2 ≤ (compute_skewed_spreads mid s p2).2) ∧
    (∀ p1 p2 : ℝ, p2 ≤ p1 → p1 ≤ 0 →
      (compute_skewed_spreads mid s p1).1 ≤ (compute_skewed_spreads mid s p2).1) ∧
    ((MAX_POSITION : ℝ) ≤ p →
      (compute_skewed_spreads mid s p).2 = s * (1 + (POSITION_SKEW_FACTOR : ℝ))) := by
  have hM0 : (0 : ℝ) < ((MAX_POSITION : ℚ) : ℝ) := by norm_num [MAX_POSITION]
  have hk0 : (0 : ℝ) ≤ ((POSITION_SKEW_FACTOR : ℚ) : ℝ) := by
    norm_num [POSITION_SKEW_FACTOR]
  have hkpos : (0 : ℝ) < ((POSITION_SKEW_FACTOR : ℚ) : ℝ) := by
    norm_num [POSITION_SKEW_FACTOR]
  refine ⟨by simp [compute_skewed_spreads], ?_, ?_, ?_, ?_, ?_⟩
  · intro hp
    rw [compute_skewed_spreads_formula mid s p (ne_of_gt hp)]
    have hr : 0 < p / ((MAX_POSITION : ℚ) : ℝ) := div_pos hp hM0
    have hmin : 0 < min 1 (p / ((MAX_POSITION : ℚ) : ℝ)) := lt_min one_pos hr
    have hprc : max (-1 : ℝ) (min 1 (p / ((MAX_POSITION : ℚ) : ℝ)))
        = min 1 (p / ((MAX_POSITION : ℚ) : ℝ)) :=
      max_eq_right (by linarith)
    constructor
    · show s * (1 + _ * max 0 (-(max (-1 : ℝ) _))) = s
      rw [hprc, max_eq_left (by linarith)]
      ring
    · show s < s * (1 + _ * max 0 (max (-1 : ℝ) _))
      rw [hprc, max_eq_right (le_of_lt hmin)]
      nlinarith [mul_pos hkpos hmin]
  · intro hp
    rw [compute_skewed_spreads_formula mid s p (ne_of_lt hp)]
    have hr : p / ((MAX_POSITION : ℚ) : ℝ) < 0 := div_neg_of_neg_of_pos hp hM0
    have hmin : min 1 (p / ((MAX_POSITION : ℚ) : ℝ)) = p / ((MAX_POSITION : ℚ) : ℝ) :=
      min_eq_right (by linarith)
    have hprcneg : max (-1 : ℝ) (min 1 (p / ((MAX_POSITION : ℚ) : ℝ))) < 0 := by
      rw [hmin]
      exact max_lt (by norm_num) hr
    constructor
    · show s * (1 + _ * max 0 (max (-1 : ℝ) _)) = s
      rw [max_eq_left (le_of_lt hprcneg)]
      ring
    · show s < s * (1 + _ * max 0 (-(max (-1 : ℝ) _)))
      rw [max_eq_right (by linarith)]
      nlinarith [mul_pos hkpos (by linarith :
        (0 : ℝ) < -(max (-1 : ℝ) (min 1 (p / ((MAX_POSITION : ℚ) : ℝ)))))]
  · intro p1 p2 h0 h12
    by_cases h1 : p1 = 0
    · subst h1
      by_cases h2 : p2 = 0
      · subst h2; exact le_refl _
      · rw [compute_skewed_spreads_formula mid s p2 h2]
        show (compute_skewed_spreads mid s 0).2 ≤ s * (1 + _ * max 0 _)
        have : (compute_skewed_spreads mid s 0).2 = s := by
          simp [compute_skewed_spreads]
        rw [this]
        nlinarith [mul_nonneg hk0 (le_max_left (0 : ℝ)
          (max (-1 : ℝ) (min 1 (p2 / ((MAX_POSITION : ℚ) : ℝ)))))]
    · have h1pos : 0 < p1 := lt_of_le_of_ne h0 (Ne.symm h1)
      have h2pos : 0 < p2 := lt_of_lt_of_le h1pos h12
      rw [compute_skewed_spreads_formula mid s p1 (ne_of_gt h1pos),
        compute_skewed_spreads_formula mid s p2 (ne_of_gt h2pos)]
      have hdiv : p1 / ((MAX_POSITION : ℚ) : ℝ) ≤ p2 / ((MAX_POSITION : ℚ) : ℝ) :=
        (div_le_div_right hM0).mpr h12
      have hc : max (-1 : ℝ) (min 1 (p1 / ((MAX_POSITION : ℚ) : ℝ)))
          ≤ max (-1 : ℝ) (min 1 (p2 / ((MAX_POSITION : ℚ) : ℝ))) :=
        max_le_max le_rfl (min_le_min le_rfl hdiv)
      have hmax : max (0 : ℝ) (max (-1 : ℝ) (min 1 (p1 / ((MAX_POSITION : ℚ) : ℝ))))
          ≤ max (0 : ℝ) (max (-1 : ℝ) (min 1 (p2 / ((MAX_POSITION : ℚ) : ℝ)))) :=
        max_le_max le_rfl hc
      exact mul_le_mul_of_nonneg_left
        (add_le_add_left (mul_le_mul_of_nonneg_left hmax hk0) 1) (le_of_lt hs)
  · intro p1 p2 h12 h10
    by_cases h1 : p1 = 0
    · subst h1
      by_cases h2 : p2 = 0
      · subst h2; exact le_refl _
      · rw [compute_skewed_spreads_formula mid s p2 h2]
        have : (compute_skewed_spreads mid s 0).1 = s := by
          simp [compute_skewed_spreads]
        rw [this]
        nlinarith [mul_nonneg hk0 (le_max_left (0 : ℝ)
          (-(max (-1 : ℝ) (min 1 (p2 / ((MAX_POSITION : ℚ) : ℝ))))))]
    · have h1neg : p1 < 0 := lt_of_le_of_ne h10 h1
      have h2neg : p2 < 0 := lt_of_le_of_lt h12 h1neg
      rw [compute_skewed_spreads_formula mid s p1 (ne_of_lt h1neg),
        compute_skewed_spreads_formula mid s p2 (ne_of_lt h2neg)]
      have hdiv : p2 / ((MAX_POSITION : ℚ) : ℝ) ≤ p1 / ((MAX_POSITION : ℚ) : ℝ) :=
        (div_le_div_right hM0).mpr h12
      have hc : -(max (-1 : ℝ) (min 1 (p1 / ((MAX_POSITION : ℚ) : ℝ))))
          ≤ -(max (-1 : ℝ) (min 1 (p2 / ((MAX_POSITION : ℚ) : ℝ)))) := by
        have := max_le_max (le_refl (-1 : ℝ)) (min_le_min (le_refl (1 : ℝ)) hdiv)
        linarith
      have hmax : max (0 : ℝ) (-(max (-1 : ℝ) (min 1 (p1 / ((MAX_POSITION : ℚ) : ℝ)))))
          ≤ max (0 : ℝ) (-(max (-1 : ℝ) (min 1 (p2 / ((MAX_POSITION : ℚ) : ℝ))))) :=
        max_le_max le_rfl hc
      exact mul_le_mul_of_nonneg_left
        (add_le_add_left (mul_le_mul_of_nonneg_left hmax hk0) 1) (le_of_lt hs)
  · intro hMp
    have hppos : 0 < p := lt_of_lt_of_le hM0 hMp
    rw [compute_skewed_spreads_formula mid s p (ne_of_gt hppos)]
    have hr1 : (1 : ℝ) ≤ p / ((MAX_POSITION : ℚ) : ℝ) := by
      rw [le_div_iff hM0]
      linarith
    show s * (1 + _ * max 0 (max (-1 : ℝ) (min 1 _))) = _
    rw [min_eq_left hr1, max_eq_right (by norm_num : (-1 : ℝ) ≤ 1),
      max_eq_right (by norm_num : (0 : ℝ) ≤ 1), mul_one]

/-- Concrete run for C7: with base spread 1, the multipliers are (1, 1)
at zero position and the ask side strictly exceeds the base at position
1/200. -/
theorem C7_skew_asymmetry_witness :
    compute_skewed_spreads 100 1 0 = (1, 1) ∧
    (1 : ℝ) < (compute_skewed_spreads 100 1 (1/200)).2 :=
  ⟨(C7_skew_asymmetry 100 1 (1/200) one_pos).1,
   ((C7_skew_asymmetry 100 1 (1/200) one_pos).2.1 (by norm_num)).2⟩

/-- Claim C1, counterexample: at position exactly STOP_TRADING_THRESHOLD
(+0.008, with maxPosition 0.01), a book update at mid 100000 still
generates orders — the hard stop uses a strict comparison and does not
trigger at the boundary, so the claim that order generation is
suppressed there is false. -/
theorem C1_counterexample_boundary_not_suppressed :
    handle_l2book ⟨[], none, 0⟩ STOP_TRADING_THRESHOLD 0
        [[.dict (.val 100000)], [.dict (.val 100000)]] ≠ [] := by
  unfold handle_l2book
  norm_num [parse_best, STOP_TRADING_THRESHOLD, BASE_SIZE, MIN_ORDER_NOTIONAL,
    MAX_POSITION, MIN_HOLD_SECONDS, List.isEmpty]
  exact ⟨by rw [abs_le]; constructor <;> norm_num, by simp⟩

/-- Claim C1 as amended: whenever the tracked position strictly exceeds
STOP_TRADING_THRESHOLD in absolute value, handle_l2book suppresses all
new order generation for that book update; at |position| equal to the
threshold the hard stop does not trigger. -/
theorem C1_hard_stop_suppresses_when_strictly_exceeded (st : QuoteState)
    (pos now : ℚ) (levels : List (List L2Level))
    (h : |pos| > STOP_TRADING_THRESHOLD) :
    handle_l2book st pos now levels = [] := by
  unfold handle_l2book
  rcases levels with _ | ⟨bids, _ | ⟨asks, rest⟩⟩
  · rfl
  · rfl
  · by_cases hempty : bids.isEmpty || asks.isEmpty
    · simp [hempty]
    · simp only [hempty, Bool.false_eq_true, if_false]
      cases hb : parse_best bids with
      | none => rfl
      | some best_bid =>
        cases ha : parse_best asks with
        | none => rfl
        | some best_ask =>
          split
          all_goals simp [h]

/-- Concrete run for the amended C1: at position 0.009 (strictly above
the 0.008 threshold) the same book update generates no orders. -/
theorem C1_hard_stop_witness :
    |(9/1000 : ℚ)| > STOP_TRADING_THRESHOLD ∧
    handle_l2book ⟨[], none, 0⟩ (9/1000) 0
        [[.dict (.val 100000)], [.dict (.val 100000)]] = [] :=
  ⟨by rw [abs_of_pos (by norm_num : (0:ℚ) < 9/1000)]; norm_num [STOP_TRADING_THRESHOLD],
   C1_hard_stop_suppresses_when_strictly_exceeded ⟨[], none, 0⟩ (9/1000) 0
     [[.dict (.val 100000)], [.dict (.val 100000)]]
     (by rw [abs_of_pos (by norm_num : (0:ℚ) < 9/1000)];
         norm_num [STOP_TRADING_THRESHOLD])⟩

end MM
